import Mathlib

/-!
Shallow embedding of the quantitative-finance engine of the repository
(option pricing, fixed-income analytics, portfolio optimization, statistical
factor models), together with theorems checking the specification's claims
against the code.

Numbers are modelled as exact reals (`ℝ`) — or exact rationals (`ℚ`) for the
purely arithmetic statistics module — rather than IEEE floats; `Math.exp`,
`Math.log`, `Math.sqrt` and real-exponent `Math.pow` become `Real.exp`,
`Real.log`, `Real.sqrt` and `Real.rpow`.  Functions that `throw` are embedded
as `Except String`-valued functions, `throw` becoming `.error`.
-/

open scoped Classical

/-- A fallible computation produced a value (the TypeScript function returned
instead of throwing). -/
def returnsValue {α : Type} (e : Except String α) : Prop :=
  ∃ v, e = .ok v

/-! ## Fixed-income analytics: bond pricing (`src/unnamed/part_005`) -/

/-- Body of `calculateBondPrice` (`src/unnamed/part_005`, lines 25–41) after the
positivity guard.  The same formula appears verbatim as the local
`calculateBondPrice` helper of `src/packages/bond-calculations/src/yield.ts`
(lines 77–98), which has no guard of its own, so both are embedded by this one
definition.  `Math.pow` with a real exponent is `Real.rpow`. -/
noncomputable def bondPriceVal (faceValue couponRate yieldRate yearsToMaturity couponFrequency : ℝ) : ℝ :=
  let couponPayment := faceValue * couponRate / couponFrequency
  let periods := yearsToMaturity * couponFrequency
  let periodicYield := yieldRate / couponFrequency
  if |periodicYield| < 1e-10 then
    faceValue + couponPayment * periods
  else
    couponPayment * (1 - (1 + periodicYield) ^ (-periods)) / periodicYield
      + faceValue / (1 + periodicYield) ^ periods

/-- `calculateBondPrice` (`src/unnamed/part_005`, lines 14–42): positivity guard
on face value, years to maturity and coupon frequency, then the present-value
formula. -/
noncomputable def calculateBondPrice (faceValue couponRate yieldRate yearsToMaturity couponFrequency : ℝ) :
    Except String ℝ :=
  if faceValue ≤ 0 ∨ yearsToMaturity ≤ 0 ∨ couponFrequency ≤ 0 then
    .error "parameters must be positive"
  else
    .ok (bondPriceVal faceValue couponRate yieldRate yearsToMaturity couponFrequency)

/-- The specification's primary bond-price formula, written as the explicit
cash-flow sum `Σ_{i=1}^{m} coupon/(1+y)^i + face/(1+y)^m` for an integral
number `m` of periods. -/
noncomputable def bondPriceSumSpec (faceValue couponRate yieldRate couponFrequency : ℝ) (m : ℕ) : ℝ :=
  let couponPayment := faceValue * couponRate / couponFrequency
  let periodicYield := yieldRate / couponFrequency
  (Finset.range m).sum (fun i => couponPayment / (1 + periodicYield) ^ (i + 1))
    + faceValue / (1 + periodicYield) ^ m

/-- Bernoulli's inequality for negative real exponents, strict form:
`1 - p·x < (1+x)^(-p)` for `p > 0`, `x > -1`, `x ≠ 0`.  Proved from the
logarithm bound `log t ≤ t - 1`. -/
theorem one_sub_mul_lt_rpow_neg {x p : ℝ} (hx : -1 < x) (hne : x ≠ 0) (hp : 0 < p) :
    1 - p * x < (1 + x) ^ (-p) := by
  have hx1 : 0 < 1 + x := by linarith
  rcases le_or_lt (1 - p * x) 0 with h0 | h0
  · exact lt_of_le_of_lt h0 (Real.rpow_pos_of_pos hx1 _)
  · have hne2 : 1 - p * x ≠ 1 := by
      intro h
      apply hne
      have hpx : p * x = 0 := by linarith
      rcases mul_eq_zero.mp hpx with h1 | h1
      · exact absurd h1 hp.ne'
      · exact h1
    have hlog1 : Real.log (1 - p * x) < -(p * x) := by
      have := Real.log_lt_sub_one_of_pos h0 hne2
      linarith
    have hlog2 : Real.log (1 + x) ≤ x := by
      have := Real.log_le_sub_one_of_pos hx1
      linarith
    have hchain : Real.log (1 - p * x) < Real.log (1 + x) * (-p) := by
      nlinarith
    calc 1 - p * x = Real.exp (Real.log (1 - p * x)) := (Real.exp_log h0).symm
      _ < Real.exp (Real.log (1 + x) * (-p)) := Real.exp_lt_exp.mpr hchain
      _ = (1 + x) ^ (-p) := (Real.rpow_def_of_pos hx1 (-p)).symm

/-- Strict antitonicity of the discount factor `(1+y)^(-n)` in `y`. -/
theorem rpow_neg_lt_rpow_neg {x1 x2 n : ℝ} (h1 : 0 < x1) (h12 : x1 < x2) (hn : 0 < n) :
    x2 ^ (-n) < x1 ^ (-n) := by
  rw [Real.rpow_neg h1.le, Real.rpow_neg (h1.trans h12).le]
  exact inv_lt_inv_of_lt (Real.rpow_pos_of_pos h1 n) (Real.rpow_lt_rpow h1.le h12 hn)

/-- The annuity factor `(1 - (1+y)^(-n))/y` is at most `n` for positive `y`. -/
theorem annuityFactor_le_pos {n y : ℝ} (hn : 0 < n) (hy : 0 < y) :
    (1 - (1 + y) ^ (-n)) / y ≤ n := by
  rw [div_le_iff hy]
  have := one_sub_mul_lt_rpow_neg (x := y) (by linarith) hy.ne' hn
  nlinarith

/-- The annuity factor `(1 - (1+y)^(-n))/y` is at least `n` for `-1 < y < 0`. -/
theorem annuityFactor_ge_neg {n y : ℝ} (hn : 0 < n) (hy1 : -1 < y) (hy0 : y < 0) :
    n ≤ (1 - (1 + y) ^ (-n)) / y := by
  rw [le_div_iff_of_neg hy0]
  have := one_sub_mul_lt_rpow_neg (x := y) hy1 hy0.ne hn
  nlinarith

/-- Antitonicity of the annuity factor on positive yields. -/
theorem annuityFactor_anti_pos {n y1 y2 : ℝ} (hn : 0 < n) (h1 : 0 < y1) (h12 : y1 < y2) :
    (1 - (1 + y2) ^ (-n)) / y2 ≤ (1 - (1 + y1) ^ (-n)) / y1 := by
  have hb1 : (0:ℝ) < 1 + y1 := by linarith
  have hb2 : (0:ℝ) < 1 + y2 := by linarith
  set d := (y2 - y1) / (1 + y1) with hd
  have hdpos : 0 < d := div_pos (by linarith) hb1
  have hfact : (1 + y1) * (1 + d) = 1 + y2 := by
    field_simp [hd]
  set v1 := (1 + y1) ^ (-n) with hv1def
  set w := (1 + d) ^ (-n) with hwdef
  have hv1pos : 0 < v1 := Real.rpow_pos_of_pos hb1 _
  have hwpos : 0 < w := Real.rpow_pos_of_pos (by linarith) _
  have hv2 : (1 + y2) ^ (-n) = v1 * w := by
    rw [← hfact, Real.mul_rpow hb1.le (by linarith)]
  have hwlt : 1 - n * d < w := one_sub_mul_lt_rpow_neg (by linarith) hdpos.ne' hn
  set W := (1 + y1) ^ (n + 1) with hWdef
  have hW : 1 + (n + 1) * y1 ≤ W := one_add_mul_self_le_rpow_one_add (by linarith) (by linarith)
  have hvW : v1 * W = 1 + y1 := by
    rw [hv1def, hWdef, ← Real.rpow_add hb1]
    norm_num
  have hstep : v1 * (n * y1) ≤ (1 - v1) * (1 + y1) := by nlinarith
  have hc : d * (1 + y1) = y2 - y1 := by
    field_simp [hd]
  have hdd : v1 * y1 * (n * d) ≤ (1 - v1) * (y2 - y1) := by
    nlinarith [mul_le_mul_of_nonneg_right hstep hdpos.le]
  have ha : v1 * y1 * (1 - w) ≤ v1 * y1 * (n * d) := by
    nlinarith [mul_pos hv1pos h1]
  rw [hv2, div_le_div_iff (by linarith) h1]
  nlinarith

/-- Antitonicity of the annuity factor on negative yields above `-1`. -/
theorem annuityFactor_anti_neg {n y1 y2 : ℝ} (hn : 0 < n) (hb1 : -1 < y1) (h12 : y1 < y2)
    (h2 : y2 < 0) :
    (1 - (1 + y2) ^ (-n)) / y2 ≤ (1 - (1 + y1) ^ (-n)) / y1 := by
  have hb1p : (0:ℝ) < 1 + y1 := by linarith
  have hb2p : (0:ℝ) < 1 + y2 := by linarith
  have h1 : y1 < 0 := lt_trans h12 h2
  set d := (y2 - y1) / (1 + y2) with hd
  have hdpos : 0 < d := div_pos (by linarith) hb2p
  have hdlt : d < 1 := by
    rw [hd, div_lt_one hb2p]
    linarith
  have hfact : (1 + y2) * (1 - d) = 1 + y1 := by
    field_simp [hd]
    ring
  set v2 := (1 + y2) ^ (-n) with hv2def
  set u := (1 - d) ^ (-n) with hudef
  have hv2pos : 0 < v2 := Real.rpow_pos_of_pos hb2p _
  have hupos : 0 < u := Real.rpow_pos_of_pos (by linarith) _
  have hv1 : (1 + y1) ^ (-n) = v2 * u := by
    rw [← hfact, Real.mul_rpow hb2p.le (by linarith)]
  have hult : 1 + n * d < u := by
    have := one_sub_mul_lt_rpow_neg (x := -d) (by linarith) (by simpa using hdpos.ne') hn
    rw [show (1:ℝ) + -d = 1 - d by ring] at this
    nlinarith
  set W := (1 + y2) ^ (n + 1) with hWdef
  have hW : 1 + (n + 1) * y2 ≤ W := one_add_mul_self_le_rpow_one_add (by linarith) (by linarith)
  have hvW : v2 * W = 1 + y2 := by
    rw [hv2def, hWdef, ← Real.rpow_add hb2p]
    norm_num
  have hstep : v2 * (1 + y2) + n * (v2 * y2) ≤ 1 + y2 := by nlinarith
  have hc : d * (1 + y2) = y2 - y1 := by
    field_simp [hd]
  have hkey : (1 - v2) * y1 ≤ (1 - v2 * u) * y2 := by
    have he : v2 * y2 * (n * d) + v2 * (d * (1 + y2)) ≤ d * (1 + y2) := by
      nlinarith [mul_le_mul_of_nonneg_right hstep hdpos.le]
    have hf : v2 * y2 * (u - 1) ≤ v2 * y2 * (n * d) := by
      nlinarith [mul_pos hv2pos (neg_pos.mpr h2)]
    nlinarith
  have hy1ne : y1 ≠ 0 := h1.ne
  have hy2ne : y2 ≠ 0 := h2.ne
  have hprod : 0 < y2 * y1 := mul_pos_of_neg_of_neg h2 h1
  rw [hv1]
  have hmul := mul_le_mul_of_nonneg_right hkey (inv_nonneg.mpr hprod.le)
  calc (1 - v2) / y2 = (1 - v2) * y1 * (y2 * y1)⁻¹ := by
        field_simp
        ring
    _ ≤ (1 - v2 * u) * y2 * (y2 * y1)⁻¹ := hmul
    _ = (1 - v2 * u) / y1 := by
        field_simp
        ring

/-- Antitonicity of the annuity factor on `(-1, ∞) \ {0}`. -/
theorem annuityFactor_anti {n y1 y2 : ℝ} (hn : 0 < n) (hb1 : -1 < y1) (h12 : y1 < y2)
    (h1ne : y1 ≠ 0) (h2ne : y2 ≠ 0) :
    (1 - (1 + y2) ^ (-n)) / y2 ≤ (1 - (1 + y1) ^ (-n)) / y1 := by
  rcases lt_trichotomy y1 0 with h1neg | h1z | h1pos
  · rcases lt_trichotomy y2 0 with h2neg | h2z | h2pos
    · exact annuityFactor_anti_neg hn hb1 h12 h2neg
    · exact absurd h2z h2ne
    · exact le_trans (annuityFactor_le_pos hn h2pos) (annuityFactor_ge_neg hn hb1 h1neg)
  · exact absurd h1z h1ne
  · exact annuityFactor_anti_pos hn h1pos h12

/-- Evaluation of `bondPriceVal` on the degenerate (near-zero periodic yield)
branch. -/
theorem bondPriceVal_band {F cr y yrs freq : ℝ} (h : |y / freq| < 1e-10) :
    bondPriceVal F cr y yrs freq = F + F * cr / freq * (yrs * freq) := by
  simp only [bondPriceVal]
  rw [if_pos h]

/-- Evaluation of `bondPriceVal` on the annuity closed-form branch. -/
theorem bondPriceVal_annuity {F cr y yrs freq : ℝ} (h : ¬ |y / freq| < 1e-10) :
    bondPriceVal F cr y yrs freq =
      F * cr / freq * (1 - (1 + y / freq) ^ (-(yrs * freq))) / (y / freq)
        + F / (1 + y / freq) ^ (yrs * freq) := by
  simp only [bondPriceVal]
  rw [if_neg h]

/-- C4 (amended): `calculateBondPrice` is strictly decreasing in the yield for
face value `> 0`, coupon rate `≥ 0`, years to maturity `> 0`, coupon frequency
`> 0` and `1 +` periodic yield positive, provided the two periodic yields do
not both fall in the degenerate band `|y| < 1e-10` on which the code returns
the constant `face + coupon·periods`. -/
theorem calculateBondPrice_yield_strictAnti
    {F cr y1 y2 yrs freq : ℝ}
    (hF : 0 < F) (hcr : 0 ≤ cr) (hyrs : 0 < yrs) (hfreq : 0 < freq)
    (h12 : y1 < y2) (hb1 : 0 < 1 + y1 / freq) (hb2 : 0 < 1 + y2 / freq)
    (hband : ¬ (|y1 / freq| < 1e-10 ∧ |y2 / freq| < 1e-10)) :
    ∃ p1 p2, calculateBondPrice F cr y1 yrs freq = .ok p1 ∧
      calculateBondPrice F cr y2 yrs freq = .ok p2 ∧ p2 < p1 := by
  have hguard : ¬ (F ≤ 0 ∨ yrs ≤ 0 ∨ freq ≤ 0) := by
    push_neg
    exact ⟨hF, hyrs, hfreq⟩
  refine ⟨bondPriceVal F cr y1 yrs freq, bondPriceVal F cr y2 yrs freq, ?_, ?_, ?_⟩
  · simp only [calculateBondPrice]
    rw [if_neg hguard]
  · simp only [calculateBondPrice]
    rw [if_neg hguard]
  have hn : 0 < yrs * freq := mul_pos hyrs hfreq
  have hc0 : 0 ≤ F * cr / freq := div_nonneg (mul_nonneg hF.le hcr) hfreq.le
  have hpy12 : y1 / freq < y2 / freq := by
    have := mul_lt_mul_of_pos_right h12 (inv_pos.mpr hfreq)
    simpa [div_eq_mul_inv] using this
  have hFdiv : ∀ py : ℝ, 0 < 1 + py →
      F / (1 + py) ^ (yrs * freq) = F * (1 + py) ^ (-(yrs * freq)) := by
    intro py hpy
    rw [Real.rpow_neg hpy.le, div_eq_mul_inv]
  by_cases hband1 : |y1 / freq| < 1e-10
  · have hband2 : ¬ |y2 / freq| < 1e-10 := fun h => hband ⟨hband1, h⟩
    have hpy2pos : 0 < y2 / freq := by
      rcases abs_lt.mp hband1 with ⟨hl, hr⟩
      by_contra hnp
      push_neg at hnp
      exact hband2 (abs_lt.mpr ⟨by linarith, by linarith⟩)
    have hA2 : (1 - (1 + y2 / freq) ^ (-(yrs * freq))) / (y2 / freq) ≤ yrs * freq :=
      annuityFactor_le_pos hn hpy2pos
    have hB2 : (1 + y2 / freq) ^ (-(yrs * freq)) < 1 :=
      Real.rpow_lt_one_of_one_lt_of_neg (by linarith) (by linarith)
    calc bondPriceVal F cr y2 yrs freq
        = F * cr / freq * ((1 - (1 + y2 / freq) ^ (-(yrs * freq))) / (y2 / freq))
            + F * (1 + y2 / freq) ^ (-(yrs * freq)) := by
          rw [bondPriceVal_annuity hband2, hFdiv _ hb2]
          ring
      _ < F + F * cr / freq * (yrs * freq) := by
          nlinarith [mul_le_mul_of_nonneg_left hA2 hc0, mul_lt_mul_of_pos_left hB2 hF]
      _ = bondPriceVal F cr y1 yrs freq := (bondPriceVal_band hband1).symm
  · by_cases hband2 : |y2 / freq| < 1e-10
    · have hpy1neg : y1 / freq < 0 := by
        rcases abs_lt.mp hband2 with ⟨hl, hr⟩
        by_contra hnn
        push_neg at hnn
        exact hband1 (abs_lt.mpr ⟨by linarith, by linarith⟩)
      have hA1 : yrs * freq ≤ (1 - (1 + y1 / freq) ^ (-(yrs * freq))) / (y1 / freq) :=
        annuityFactor_ge_neg hn (by linarith) hpy1neg
      have hB1 : 1 < (1 + y1 / freq) ^ (-(yrs * freq)) :=
        Real.one_lt_rpow_of_pos_of_lt_one_of_neg hb1 (by linarith) (by linarith)
      calc bondPriceVal F cr y2 yrs freq
          = F + F * cr / freq * (yrs * freq) := bondPriceVal_band hband2
        _ < F * cr / freq * ((1 - (1 + y1 / freq) ^ (-(yrs * freq))) / (y1 / freq))
              + F * (1 + y1 / freq) ^ (-(yrs * freq)) := by
            nlinarith [mul_le_mul_of_nonneg_left hA1 hc0, mul_lt_mul_of_pos_left hB1 hF]
        _ = bondPriceVal F cr y1 yrs freq := by
            rw [bondPriceVal_annuity hband1, hFdiv _ hb1]
            ring
    · have h1ne : y1 / freq ≠ 0 := by
        intro h
        apply hband1
        rw [h]
        norm_num
      have h2ne : y2 / freq ≠ 0 := by
        intro h
        apply hband2
        rw [h]
        norm_num
      have hA := annuityFactor_anti hn (by linarith) hpy12 h1ne h2ne
      have hB : (1 + y2 / freq) ^ (-(yrs * freq)) < (1 + y1 / freq) ^ (-(yrs * freq)) :=
        rpow_neg_lt_rpow_neg hb1 (by linarith) hn
      calc bondPriceVal F cr y2 yrs freq
          = F * cr / freq * ((1 - (1 + y2 / freq) ^ (-(yrs * freq))) / (y2 / freq))
              + F * (1 + y2 / freq) ^ (-(yrs * freq)) := by
            rw [bondPriceVal_annuity hband2, hFdiv _ hb2]
            ring
        _ < F * cr / freq * ((1 - (1 + y1 / freq) ^ (-(yrs * freq))) / (y1 / freq))
              + F * (1 + y1 / freq) ^ (-(yrs * freq)) := by
            nlinarith [mul_le_mul_of_nonneg_left hA hc0, mul_lt_mul_of_pos_left hB hF]
        _ = bondPriceVal F cr y1 yrs freq := by
            rw [bondPriceVal_annuity hband1, hFdiv _ hb1]
            ring

/-- C4 counterexample: at face `1000`, coupon rate `1/20`, one year, annual
coupons, the yields `0` and `1e-11` both fall in the degenerate band, so the
two prices are equal (`1050`) although the yields differ — the price is not
strictly decreasing in the yield as claimed. -/
theorem calculateBondPrice_plateau_cex :
    calculateBondPrice 1000 (1/20) 0 1 1 = .ok 1050 ∧
      calculateBondPrice 1000 (1/20) 1e-11 1 1 = .ok 1050 ∧ (0:ℝ) < 1e-11 := by
  refine ⟨?_, ?_, by norm_num⟩
  · simp only [calculateBondPrice]
    rw [if_neg (by norm_num), bondPriceVal_band (by norm_num)]
    norm_num
  · simp only [calculateBondPrice]
    rw [if_neg (by norm_num),
      bondPriceVal_band (by rw [div_one, abs_of_nonneg (by norm_num : (0:ℝ) ≤ 1e-11)]; norm_num)]
    norm_num

/-- Witness for C4's amended theorem at face `100`, coupon rate `0`, yields
`0 < 1`, one year, annual coupons. -/
theorem calculateBondPrice_yield_strictAnti_witness :
    ∃ p1 p2, calculateBondPrice 100 0 0 1 1 = .ok p1 ∧
      calculateBondPrice 100 0 1 1 1 = .ok p2 ∧ p2 < p1 :=
  calculateBondPrice_yield_strictAnti (by norm_num) (by norm_num) (by norm_num) (by norm_num)
    (by norm_num) (by norm_num) (by norm_num) (by norm_num)

/-- The finite coupon sum evaluates to the annuity closed form for nonzero
periodic yield. -/
theorem couponSum_eq_closed {py : ℝ} (hpy : py ≠ 0) (hb : (0:ℝ) < 1 + py) (cp : ℝ) (m : ℕ) :
    (Finset.range m).sum (fun i => cp / (1 + py) ^ (i + 1))
      = cp * (1 - ((1 + py) ^ m)⁻¹) / py := by
  have hbne : (1:ℝ) + py ≠ 0 := hb.ne'
  induction m with
  | zero => simp
  | succ k ih =>
    rw [Finset.sum_range_succ, ih]
    have hpow : ((1:ℝ) + py) ^ k ≠ 0 := pow_ne_zero _ hbne
    have hpow1 : ((1:ℝ) + py) ^ (k + 1) ≠ 0 := pow_ne_zero _ hbne
    field_simp
    ring

/-- C5: for positive face value, maturity and frequency, an integral number `m`
of periods, and positive `1 +` periodic yield, `calculateBondPrice` returns —
without raising and without dividing by zero — the cash-flow sum
`Σ_{i=1}^{m} coupon/(1+y)^i + face/(1+y)^m` when `|periodic yield| ≥ 1e-10`
(the annuity closed form the code computes equals that sum), and the degenerate
value `face + coupon·m` otherwise. -/
theorem calculateBondPrice_formula {F cr y yrs freq : ℝ} {m : ℕ}
    (hF : 0 < F) (hyrs : 0 < yrs) (hfreq : 0 < freq)
    (hm : yrs * freq = (m : ℝ)) (hb : 0 < 1 + y / freq) :
    calculateBondPrice F cr y yrs freq =
      .ok (if |y / freq| < 1e-10 then F + F * cr / freq * (m : ℝ)
           else bondPriceSumSpec F cr y freq m) := by
  have hguard : ¬ (F ≤ 0 ∨ yrs ≤ 0 ∨ freq ≤ 0) := by
    push_neg
    exact ⟨hF, hyrs, hfreq⟩
  simp only [calculateBondPrice]
  rw [if_neg hguard]
  congr 1
  by_cases hband : |y / freq| < 1e-10
  · rw [bondPriceVal_band hband, if_pos hband, hm]
  · rw [bondPriceVal_annuity hband, if_neg hband]
    simp only [bondPriceSumSpec]
    have hpyne : y / freq ≠ 0 := by
      intro h
      apply hband
      rw [h]
      norm_num
    rw [couponSum_eq_closed hpyne hb (F * cr / freq) m, hm,
      Real.rpow_neg (by linarith : (0:ℝ) ≤ 1 + y / freq), Real.rpow_natCast]

/-- Witness for C5 at face `100`, coupon rate `0`, yield `1`, one year, one
coupon period per year (`m = 1`). -/
theorem calculateBondPrice_formula_witness :
    calculateBondPrice 100 0 1 1 1 =
      .ok (if |(1:ℝ) / 1| < 1e-10 then 100 + 100 * 0 / 1 * ((1:ℕ) : ℝ)
           else bondPriceSumSpec 100 0 1 1 1) :=
  calculateBondPrice_formula (m := 1) (by norm_num) (by norm_num) (by norm_num) (by norm_num)
    (by norm_num)

/-! ## Fixed-income analytics: yield to maturity
(`src/packages/bond-calculations/src/yield.ts`) -/

/-- `calculateBondPriceDerivative` (`yield.ts`, lines 103–124): closed-form
derivative of the bond price with respect to the yield. -/
noncomputable def calculateBondPriceDerivative (faceValue couponRate yieldRate yearsToMaturity couponFrequency : ℝ) : ℝ :=
  let couponPayment := faceValue * couponRate / couponFrequency
  let periods := yearsToMaturity * couponFrequency
  let periodicYield := yieldRate / couponFrequency
  if |periodicYield| < 1e-10 then
    -periods * faceValue / couponFrequency
  else
    let term1 := -couponPayment * periods / (periodicYield * periodicYield) *
      (1 - (1 + periodicYield) ^ (-periods))
    let term2 := couponPayment * periods / (periodicYield * (1 + periodicYield) ^ (periods + 1))
    let term3 := -faceValue * periods / (couponFrequency * (1 + periodicYield) ^ (periods + 1))
    (term1 + term2 + term3) / couponFrequency

/-- The Newton–Raphson loop of `calculateYTM` (`yield.ts`, lines 36–69), with
the remaining iteration count as fuel.  Convergence (`|error| < tolerance`),
the `break` on a flat derivative, and loop exhaustion all return the current
estimate; otherwise the estimate is updated by `ytm - error/derivative` and
clamped into `[-1, 1]`. -/
noncomputable def ytmLoop (faceValue couponRate price yearsToMaturity couponFrequency tolerance : ℝ) :
    ℕ → ℝ → ℝ
  | 0, ytm => ytm
  | fuel + 1, ytm =>
    let calculatedPrice := bondPriceVal faceValue couponRate ytm yearsToMaturity couponFrequency
    let err := calculatedPrice - price
    if |err| < tolerance then ytm
    else
      let derivative := calculateBondPriceDerivative faceValue couponRate ytm yearsToMaturity couponFrequency
      if |derivative| < 1e-10 then ytm
      else
        ytmLoop faceValue couponRate price yearsToMaturity couponFrequency tolerance fuel
          (max (-1) (min 1 (ytm - err / derivative)))

/-- `calculateYTM` (`yield.ts`, lines 17–72): positivity guard, then the
Newton–Raphson search started at the coupon rate. -/
noncomputable def calculateYTM (faceValue couponRate price yearsToMaturity couponFrequency tolerance : ℝ)
    (maxIterations : ℕ) : Except String ℝ :=
  if faceValue ≤ 0 ∨ price ≤ 0 ∨ yearsToMaturity ≤ 0 ∨ couponFrequency ≤ 0 then
    .error "parameters must be positive"
  else
    .ok (ytmLoop faceValue couponRate price yearsToMaturity couponFrequency tolerance
      maxIterations couponRate)

/-- Every `ytmLoop` result is either the unchanged starting estimate or a value
clamped into `[-1, 1]`. -/
theorem ytmLoop_range (F cr price yrs freq tol : ℝ) :
    ∀ (fuel : ℕ) (y : ℝ), ytmLoop F cr price yrs freq tol fuel y = y ∨
      (-1 ≤ ytmLoop F cr price yrs freq tol fuel y ∧ ytmLoop F cr price yrs freq tol fuel y ≤ 1) := by
  intro fuel
  induction fuel with
  | zero =>
    intro y
    exact Or.inl rfl
  | succ k ih =>
    intro y
    simp only [ytmLoop]
    by_cases h1 : |bondPriceVal F cr y yrs freq - price| < tol
    · rw [if_pos h1]
      exact Or.inl rfl
    · rw [if_neg h1]
      by_cases h2 : |calculateBondPriceDerivative F cr y yrs freq| < 1e-10
      · rw [if_pos h2]
        exact Or.inl rfl
      · rw [if_neg h2]
        have hy2mem : ∀ z : ℝ, -1 ≤ max (-1) (min 1 z) ∧ max (-1) (min 1 z) ≤ 1 :=
          fun z => ⟨le_max_left _ _, max_le (by norm_num) (min_le_left _ _)⟩
        rcases ih (max (-1) (min 1 (y - (bondPriceVal F cr y yrs freq - price) /
            calculateBondPriceDerivative F cr y yrs freq))) with h | h
        · rw [h]
          exact Or.inr (hy2mem _)
        · exact Or.inr h

/-- C6: for valid inputs `calculateYTM` returns a value without raising; the
search starts at the coupon rate (returned as-is when the initial price error
is already within tolerance, or when the iteration budget is zero); every
updated estimate is clamped into `[-1, 1]`, so the result is the start value or
lies in `[-1, 1]`; and each iteration either stops on `|error| < tolerance` or
on `|derivative| < 1e-10`, or performs the clamped Newton update
`ytm - error/derivative` with the analytic derivative. -/
theorem calculateYTM_behavior {F cr price yrs freq tol : ℝ} (maxIterations : ℕ)
    (hF : 0 < F) (hp : 0 < price) (hyrs : 0 < yrs) (hfreq : 0 < freq) :
    ∃ y, calculateYTM F cr price yrs freq tol maxIterations = .ok y ∧
      (y = cr ∨ (-1 ≤ y ∧ y ≤ 1)) ∧
      (|bondPriceVal F cr cr yrs freq - price| < tol → y = cr) ∧
      (maxIterations = 0 → y = cr) ∧
      (∀ (fuel : ℕ) (ytm : ℝ), ytmLoop F cr price yrs freq tol (fuel + 1) ytm =
        if |bondPriceVal F cr ytm yrs freq - price| < tol then ytm
        else if |calculateBondPriceDerivative F cr ytm yrs freq| < 1e-10 then ytm
        else ytmLoop F cr price yrs freq tol fuel
          (max (-1) (min 1 (ytm - (bondPriceVal F cr ytm yrs freq - price) /
            calculateBondPriceDerivative F cr ytm yrs freq)))) := by
  have hguard : ¬ (F ≤ 0 ∨ price ≤ 0 ∨ yrs ≤ 0 ∨ freq ≤ 0) := by
    push_neg
    exact ⟨hF, hp, hyrs, hfreq⟩
  refine ⟨ytmLoop F cr price yrs freq tol maxIterations cr, ?_, ?_, ?_, ?_, ?_⟩
  · simp only [calculateYTM]
    rw [if_neg hguard]
  · exact ytmLoop_range F cr price yrs freq tol maxIterations cr
  · intro hstop
    cases maxIterations with
    | zero => rfl
    | succ k =>
      simp only [ytmLoop]
      rw [if_pos hstop]
  · intro h0
    rw [h0]
    simp only [ytmLoop]
  · intro fuel ytm
    simp only [ytmLoop]

/-- Witness for C6 at face `100`, coupon rate `0`, price `100`, one year,
annual frequency, tolerance `1`, iteration budget `0`. -/
theorem calculateYTM_behavior_witness :
    ∃ y, calculateYTM 100 0 100 1 1 1 0 = .ok y ∧
      (y = 0 ∨ (-1 ≤ y ∧ y ≤ 1)) ∧
      (|bondPriceVal 100 0 0 1 1 - 100| < 1 → y = 0) ∧
      ((0:ℕ) = 0 → y = 0) ∧
      (∀ (fuel : ℕ) (ytm : ℝ), ytmLoop 100 0 100 1 1 1 (fuel + 1) ytm =
        if |bondPriceVal 100 0 ytm 1 1 - 100| < 1 then ytm
        else if |calculateBondPriceDerivative 100 0 ytm 1 1| < 1e-10 then ytm
        else ytmLoop 100 0 100 1 1 1 fuel
          (max (-1) (min 1 (ytm - (bondPriceVal 100 0 ytm 1 1 - 100) /
            calculateBondPriceDerivative 100 0 ytm 1 1)))) :=
  calculateYTM_behavior 0 (by norm_num) (by norm_num) (by norm_num) (by norm_num)

/-! ## Option pricing: Black–Scholes and implied volatility
(`src/packages/options-pricing/src/black-scholes.ts`) -/

/-- `OptionType` (`black-scholes.ts`, line 8). -/
inductive OptionType
  | call
  | put
deriving DecidableEq

/-- Propagation of a thrown error through the rest of a computation. -/
def exceptBind {α β : Type} (e : Except String α) (f : α → Except String β) : Except String β :=
  match e with
  | .error s => .error s
  | .ok a => f a

/-- Reduction of `exceptBind` on a successful computation. -/
theorem exceptBind_ok {α β : Type} (a : α) (f : α → Except String β) :
    exceptBind (.ok a) f = f a := rfl

/-- `normCDF` (`black-scholes.ts`, lines 13–29): Abramowitz–Stegun rational
approximation of the standard normal CDF.  Line 26 of the source has one
unbalanced closing parenthesis; it is transcribed here as the Horner evaluation
of the A&S 7.1.26 polynomial denoted by its constants. -/
noncomputable def normCDF (x : ℝ) : ℝ :=
  let a1 : ℝ := 0.254829592
  let a2 : ℝ := -0.284496736
  let a3 : ℝ := 1.421413741
  let a4 : ℝ := -1.453152027
  let a5 : ℝ := 1.061405429
  let p : ℝ := 0.3275911
  let sign : ℝ := if 0 ≤ x then 1 else -1
  let ax := |x| / Real.sqrt 2
  let t := 1 / (1 + p * ax)
  let y := 1 - ((((a5 * t + a4) * t + a3) * t + a2) * t + a1) * t * Real.exp (-(ax * ax))
  0.5 * (1 + sign * y)

/-- Body of `blackScholes` after the guard (`black-scholes.ts`, lines 60–71). -/
noncomputable def blackScholesVal (S K T r sigma : ℝ) (optionType : OptionType) : ℝ :=
  let d1 := (Real.log (S / K) + (r + 0.5 * sigma * sigma) * T) / (sigma * Real.sqrt T)
  let d2 := d1 - sigma * Real.sqrt T
  match optionType with
  | .call => S * normCDF d1 - K * Real.exp (-(r * T)) * normCDF d2
  | .put => K * Real.exp (-(r * T)) * normCDF (-d2) - S * normCDF (-d1)

/-- `blackScholes` (`black-scholes.ts`, lines 48–72): the guard rejects
non-positive `S`, `K`, `T`, `sigma`; the rate `r` is not checked. -/
noncomputable def blackScholes (S K T r sigma : ℝ) (optionType : OptionType) : Except String ℝ :=
  if S ≤ 0 ∨ K ≤ 0 ∨ T ≤ 0 ∨ sigma ≤ 0 then
    .error "parameters must be positive"
  else
    .ok (blackScholesVal S K T r sigma optionType)

/-- C1 (amended): `blackScholes` raises exactly when one of `S`, `K`, `T`,
`sigma` is not strictly positive; the rate `r` is never checked, and for
positive `S`, `K`, `T`, `sigma` and any real rate a price is returned. -/
theorem blackScholes_domain (S K T r sigma : ℝ) (optionType : OptionType) :
    returnsValue (blackScholes S K T r sigma optionType) ↔
      (0 < S ∧ 0 < K ∧ 0 < T ∧ 0 < sigma) := by
  by_cases hg : S ≤ 0 ∨ K ≤ 0 ∨ T ≤ 0 ∨ sigma ≤ 0
  · simp only [blackScholes, returnsValue]
    rw [if_pos hg]
    constructor
    · intro ⟨v, hv⟩
      exact Except.noConfusion hv
    · intro ⟨hS, hK, hT, hsig⟩
      rcases hg with h | h | h | h <;> linarith
  · simp only [blackScholes, returnsValue]
    rw [if_neg hg]
    push_neg at hg
    constructor
    · intro _
      exact ⟨hg.1, hg.2.1, hg.2.2.1, hg.2.2.2⟩
    · intro _
      exact ⟨_, rfl⟩

/-- C1 counterexample: at `S = K = 100`, `T = 1`, `r = -1`, `sigma = 1/2`, the
rate is not strictly positive, so the claim demands a domain error — but
`blackScholes` returns a price. -/
theorem blackScholes_negative_rate_cex :
    returnsValue (blackScholes 100 100 1 (-1) (1/2) OptionType.call) ∧ ¬ ((0:ℝ) < -1) := by
  constructor
  · refine ⟨blackScholesVal 100 100 1 (-1) (1/2) OptionType.call, ?_⟩
    simp only [blackScholes]
    rw [if_neg (by norm_num)]
  · norm_num

/-- The bisection loop of `calculateImpliedVolatility` (`black-scholes.ts`,
lines 100–120), with the remaining iteration count as fuel.  `midVol` is
recomputed from the current bracket at the start of every iteration and is the
value returned both on convergence and when the budget runs out; fuel `0`
returns the pre-loop midpoint. -/
noncomputable def ivLoop (marketPrice S K T r : ℝ) (optionType : OptionType) (tolerance : ℝ) :
    ℕ → ℝ → ℝ → Except String ℝ
  | 0, lowVol, highVol => .ok ((lowVol + highVol) / 2)
  | fuel + 1, lowVol, highVol =>
    let midVol := (lowVol + highVol) / 2
    exceptBind (blackScholes S K T r midVol optionType) (fun price =>
      let diff := price - marketPrice
      if |diff| < tolerance then .ok midVol
      else if fuel = 0 then .ok midVol
      else if 0 < diff then ivLoop marketPrice S K T r optionType tolerance fuel lowVol midVol
      else ivLoop marketPrice S K T r optionType tolerance fuel midVol highVol)

/-- `calculateImpliedVolatility` (`black-scholes.ts`, lines 86–121): positivity
guard on the market price, then bisection over `σ ∈ [0.001, 5.0]`. -/
noncomputable def calculateImpliedVolatility (marketPrice S K T r : ℝ) (optionType : OptionType)
    (tolerance : ℝ) (maxIterations : ℕ) : Except String ℝ :=
  if marketPrice ≤ 0 then
    .error "market price must be positive"
  else
    ivLoop marketPrice S K T r optionType tolerance maxIterations 0.001 5.0

/-- The bisection loop keeps its bracket inside `[0.001, 5.0]`, never raises
for valid `S`, `K`, `T`, and always returns a midpoint of the current
bracket. -/
theorem ivLoop_ok_mem {marketPrice S K T r tol : ℝ} {optionType : OptionType}
    (hS : 0 < S) (hK : 0 < K) (hT : 0 < T) :
    ∀ (fuel : ℕ) (lo hi : ℝ), 0.001 ≤ lo → lo ≤ hi → hi ≤ 5.0 →
      ∃ v, ivLoop marketPrice S K T r optionType tol fuel lo hi = .ok v ∧
        0.001 ≤ v ∧ v ≤ 5.0 := by
  intro fuel
  induction fuel with
  | zero =>
    intro lo hi h1 h2 h3
    exact ⟨(lo + hi) / 2, rfl, by norm_num; linarith, by norm_num; linarith⟩
  | succ k ih =>
    intro lo hi h1 h2 h3
    have hmid1 : (0.001 : ℝ) ≤ (lo + hi) / 2 := by norm_num at h1 h2 h3 ⊢; linarith
    have hmid2 : (lo + hi) / 2 ≤ (5.0 : ℝ) := by norm_num at h1 h2 h3 ⊢; linarith
    have hok : blackScholes S K T r ((lo + hi) / 2) optionType =
        .ok (blackScholesVal S K T r ((lo + hi) / 2) optionType) := by
      simp only [blackScholes]
      rw [if_neg (by push_neg; refine ⟨hS, hK, hT, ?_⟩; norm_num at hmid1; linarith)]
    simp only [ivLoop]
    rw [hok, exceptBind_ok]
    by_cases hd : |blackScholesVal S K T r ((lo + hi) / 2) optionType - marketPrice| < tol
    · rw [if_pos hd]
      exact ⟨_, rfl, hmid1, hmid2⟩
    · rw [if_neg hd]
      by_cases hk : k = 0
      · rw [if_pos hk]
        exact ⟨_, rfl, hmid1, hmid2⟩
      · rw [if_neg hk]
        by_cases hdiff : 0 < blackScholesVal S K T r ((lo + hi) / 2) optionType - marketPrice
        · rw [if_pos hdiff]
          exact ih lo ((lo + hi) / 2) h1 (by linarith) hmid2
        · rw [if_neg hdiff]
          exact ih ((lo + hi) / 2) hi hmid1 (by linarith) h3

/-- C7: for positive market price and valid `S`, `K`, `T` (any rate, any
tolerance, any iteration budget), the implied-volatility bisection returns a
value — the midpoint on convergence, the last midpoint otherwise, never an
exception — and that value lies in the bracket `[0.001, 5.0]`. -/
theorem calculateImpliedVolatility_bounds {marketPrice S K T r tol : ℝ}
    {optionType : OptionType} (maxIterations : ℕ)
    (hmp : 0 < marketPrice) (hS : 0 < S) (hK : 0 < K) (hT : 0 < T) :
    ∃ v, calculateImpliedVolatility marketPrice S K T r optionType tol maxIterations = .ok v ∧
      0.001 ≤ v ∧ v ≤ 5.0 := by
  simp only [calculateImpliedVolatility]
  rw [if_neg (by linarith : ¬ marketPrice ≤ 0)]
  exact ivLoop_ok_mem hS hK hT maxIterations 0.001 5.0 (le_refl _) (by norm_num) (le_refl _)

/-- Witness for C7 at market price `1`, `S = K = T = 1`, `r = 0`, call,
tolerance `1`, iteration budget `0`. -/
theorem calculateImpliedVolatility_bounds_witness :
    ∃ v, calculateImpliedVolatility 1 1 1 1 0 OptionType.call 1 0 = .ok v ∧
      0.001 ≤ v ∧ v ≤ 5.0 :=
  calculateImpliedVolatility_bounds 0 (by norm_num) (by norm_num) (by norm_num) (by norm_num)

/-! ## Option pricing: binomial lattice (`src/unnamed/part_001`) -/

/-- The intrinsic (exercise) payoff at a lattice node (`part_001`, lines 44–48
and 64–69). -/
noncomputable def payoffVal (optionType : OptionType) (stockPrice K : ℝ) : ℝ :=
  match optionType with
  | .call => max 0 (stockPrice - K)
  | .put => max 0 (K - stockPrice)

/-- Backward induction of `binomialTree` (`part_001`, lines 37–75): the node
value at index `i` after `k` backward steps from the terminal level of an
`n`-step tree.  Every internal node applies the early-exercise comparison.  At
level `j = n - k` the in-place array update reads only children `i` and `i+1`
of the previous level before writing index `i`, so it is equivalent to this
two-level recursion. -/
noncomputable def binomialTreeVals (S K u d p discount : ℝ) (optionType : OptionType) (n : ℕ) :
    ℕ → ℕ → ℝ
  | 0, i => payoffVal optionType (S * u ^ (n - i) * d ^ i) K
  | k + 1, i =>
    max (discount * (p * binomialTreeVals S K u d p discount optionType n k i
          + (1 - p) * binomialTreeVals S K u d p discount optionType n k (i + 1)))
      (payoffVal optionType (S * u ^ (n - (k + 1) - i) * d ^ i) K)

/-- Backward induction of `europeanOption` (`part_001`, lines 134–159): as
`binomialTreeVals` but with the discounted continuation alone at every internal
node. -/
noncomputable def europeanVals (S K u d p discount : ℝ) (optionType : OptionType) (n : ℕ) :
    ℕ → ℕ → ℝ
  | 0, i => payoffVal optionType (S * u ^ (n - i) * d ^ i) K
  | k + 1, i =>
    discount * (p * europeanVals S K u d p discount optionType n k i
      + (1 - p) * europeanVals S K u d p discount optionType n k (i + 1))

/-- `binomialTree` (`part_001`, lines 18–76): guard, Cox–Ross–Rubinstein
parameters, terminal payoffs and backward induction with early exercise.  The
step count `n` is taken as a natural number (the source guards `n ≤ 0` and
loops over integer indices). -/
noncomputable def binomialTree (S K T r sigma : ℝ) (n : ℕ) (optionType : OptionType) :
    Except String ℝ :=
  if S ≤ 0 ∨ K ≤ 0 ∨ T ≤ 0 ∨ sigma ≤ 0 ∨ n = 0 then
    .error "parameters must be positive"
  else
    let dt := T / (n : ℝ)
    let u := Real.exp (sigma * Real.sqrt dt)
    let d := 1 / u
    let p := (Real.exp (r * dt) - d) / (u - d)
    let discount := Real.exp (-(r * dt))
    .ok (binomialTreeVals S K u d p discount optionType n n 0)

/-- `americanOption` (`part_001`, lines 90–101): a thin caller of
`binomialTree`, which already applies early exercise. -/
noncomputable def americanOption (S K T r sigma : ℝ) (n : ℕ) (optionType : OptionType) :
    Except String ℝ :=
  binomialTree S K T r sigma n optionType

/-- `europeanOption` (`part_001`, lines 115–162): same guard and lattice
parameters as `binomialTree`, backward induction without early exercise. -/
noncomputable def europeanOption (S K T r sigma : ℝ) (n : ℕ) (optionType : OptionType) :
    Except String ℝ :=
  if S ≤ 0 ∨ K ≤ 0 ∨ T ≤ 0 ∨ sigma ≤ 0 ∨ n = 0 then
    .error "parameters must be positive"
  else
    let dt := T / (n : ℝ)
    let u := Real.exp (sigma * Real.sqrt dt)
    let d := 1 / u
    let p := (Real.exp (r * dt) - d) / (u - d)
    let discount := Real.exp (-(r * dt))
    .ok (europeanVals S K u d p discount optionType n n 0)

/-- The claim's single shared Cox–Ross–Rubinstein backward induction, with the
exercise policy as its only parameter: an American node takes
`max(continuation, intrinsic)`, a European node the continuation alone. -/
noncomputable def crrLatticeVals (american : Bool) (S K u d p discount : ℝ)
    (optionType : OptionType) (n : ℕ) : ℕ → ℕ → ℝ
  | 0, i => payoffVal optionType (S * u ^ (n - i) * d ^ i) K
  | k + 1, i =>
    let continuation := discount * (p * crrLatticeVals american S K u d p discount optionType n k i
      + (1 - p) * crrLatticeVals american S K u d p discount optionType n k (i + 1))
    if american then
      max continuation (payoffVal optionType (S * u ^ (n - (k + 1) - i) * d ^ i) K)
    else continuation

/-- The shared lattice option pricer of the claim: guard and parameters
`u = e^{σ√Δt}`, `d = 1/u`, `p = (e^{rΔt} - d)/(u - d)`, discount `e^{-rΔt}`,
then `crrLatticeVals` under the chosen exercise policy. -/
noncomputable def crrOption (american : Bool) (S K T r sigma : ℝ) (n : ℕ)
    (optionType : OptionType) : Except String ℝ :=
  if S ≤ 0 ∨ K ≤ 0 ∨ T ≤ 0 ∨ sigma ≤ 0 ∨ n = 0 then
    .error "parameters must be positive"
  else
    let dt := T / (n : ℝ)
    let u := Real.exp (sigma * Real.sqrt dt)
    let d := 1 / u
    let p := (Real.exp (r * dt) - d) / (u - d)
    let discount := Real.exp (-(r * dt))
    .ok (crrLatticeVals american S K u d p discount optionType n n 0)

/-- The American backward induction is the shared recursion with the American
exercise policy. -/
theorem binomialTreeVals_eq_crr (S K u d p discount : ℝ) (optionType : OptionType) (n : ℕ) :
    ∀ k i, binomialTreeVals S K u d p discount optionType n k i =
      crrLatticeVals true S K u d p discount optionType n k i := by
  intro k
  induction k with
  | zero =>
    intro i
    rfl
  | succ m ih =>
    intro i
    simp [binomialTreeVals, crrLatticeVals, ih]

/-- The European backward induction is the shared recursion with the European
exercise policy. -/
theorem europeanVals_eq_crr (S K u d p discount : ℝ) (optionType : OptionType) (n : ℕ) :
    ∀ k i, europeanVals S K u d p discount optionType n k i =
      crrLatticeVals false S K u d p discount optionType n k i := by
  intro k
  induction k with
  | zero =>
    intro i
    rfl
  | succ m ih =>
    intro i
    simp [europeanVals, crrLatticeVals, ih]

/-- C3: `americanOption` and `europeanOption` both compute the one shared
Cox–Ross–Rubinstein backward induction `crrOption` with identical lattice
parameters, the exercise policy being the only difference: the American
variant's node value is `max(discounted continuation, intrinsic payoff)`, the
European variant's is the discounted continuation alone. -/
theorem lattice_shared_recursion (S K T r sigma : ℝ) (n : ℕ) (optionType : OptionType) :
    americanOption S K T r sigma n optionType = crrOption true S K T r sigma n optionType ∧
      europeanOption S K T r sigma n optionType = crrOption false S K T r sigma n optionType := by
  constructor
  · simp only [americanOption, binomialTree, crrOption]
    by_cases hg : S ≤ 0 ∨ K ≤ 0 ∨ T ≤ 0 ∨ sigma ≤ 0 ∨ n = 0
    · rw [if_pos hg, if_pos hg]
    · rw [if_neg hg, if_neg hg]
      exact congrArg Except.ok (binomialTreeVals_eq_crr S K _ _ _ _ optionType n n 0)
  · simp only [europeanOption, crrOption]
    by_cases hg : S ≤ 0 ∨ K ≤ 0 ∨ T ≤ 0 ∨ sigma ≤ 0 ∨ n = 0
    · rw [if_pos hg, if_pos hg]
    · rw [if_neg hg, if_neg hg]
      exact congrArg Except.ok (europeanVals_eq_crr S K _ _ _ _ optionType n n 0)

/-- The node payoffs are nonnegative. -/
theorem payoffVal_nonneg (optionType : OptionType) (s K : ℝ) : 0 ≤ payoffVal optionType s K := by
  cases optionType <;> exact le_max_left _ _

/-- With a risk-neutral probability in `[0,1]` and a nonnegative discount, the
European node values are nonnegative and dominated by the American ones. -/
theorem euro_le_amer_vals {S K u d p discount : ℝ} {optionType : OptionType} {n : ℕ}
    (hp0 : 0 ≤ p) (hp1 : p ≤ 1) (hdisc : 0 ≤ discount) :
    ∀ k i, 0 ≤ europeanVals S K u d p discount optionType n k i ∧
      europeanVals S K u d p discount optionType n k i ≤
        binomialTreeVals S K u d p discount optionType n k i := by
  intro k
  induction k with
  | zero =>
    intro i
    exact ⟨payoffVal_nonneg _ _ _, le_refl _⟩
  | succ m ih =>
    intro i
    obtain ⟨h0i, hlei⟩ := ih i
    obtain ⟨h0s, hles⟩ := ih (i + 1)
    constructor
    · simp only [europeanVals]
      have h1 : 0 ≤ p * europeanVals S K u d p discount optionType n m i :=
        mul_nonneg hp0 h0i
      have h2 : 0 ≤ (1 - p) * europeanVals S K u d p discount optionType n m (i + 1) :=
        mul_nonneg (by linarith) h0s
      exact mul_nonneg hdisc (by linarith)
    · simp only [europeanVals, binomialTreeVals]
      refine le_trans ?_ (le_max_left _ _)
      have h1 := mul_le_mul_of_nonneg_left hlei hp0
      have h2 := mul_le_mul_of_nonneg_left hles (by linarith : (0:ℝ) ≤ 1 - p)
      exact mul_le_mul_of_nonneg_left (by linarith) hdisc

/-- C10: for positive `S`, `K`, `T`, `sigma`, at least one step, and a
risk-neutral probability `p = (e^{rΔt} - d)/(u - d)` in `[0,1]`, the American
lattice price dominates the European one, which is itself nonnegative. -/
theorem american_dominates_european {S K T r sigma : ℝ} {n : ℕ} {optionType : OptionType}
    (hS : 0 < S) (hK : 0 < K) (hT : 0 < T) (hsigma : 0 < sigma) (hn : n ≠ 0)
    (hp0 : 0 ≤ (Real.exp (r * (T / (n : ℝ))) - 1 / Real.exp (sigma * Real.sqrt (T / (n : ℝ)))) /
      (Real.exp (sigma * Real.sqrt (T / (n : ℝ))) - 1 / Real.exp (sigma * Real.sqrt (T / (n : ℝ)))))
    (hp1 : (Real.exp (r * (T / (n : ℝ))) - 1 / Real.exp (sigma * Real.sqrt (T / (n : ℝ)))) /
      (Real.exp (sigma * Real.sqrt (T / (n : ℝ))) - 1 / Real.exp (sigma * Real.sqrt (T / (n : ℝ)))) ≤ 1) :
    ∃ a e, americanOption S K T r sigma n optionType = .ok a ∧
      europeanOption S K T r sigma n optionType = .ok e ∧ 0 ≤ e ∧ e ≤ a := by
  have hguard : ¬ (S ≤ 0 ∨ K ≤ 0 ∨ T ≤ 0 ∨ sigma ≤ 0 ∨ n = 0) := by
    push_neg
    exact ⟨hS, hK, hT, hsigma, hn⟩
  obtain ⟨h0, hle⟩ := @euro_le_amer_vals S K
    (Real.exp (sigma * Real.sqrt (T / (n : ℝ))))
    (1 / Real.exp (sigma * Real.sqrt (T / (n : ℝ))))
    ((Real.exp (r * (T / (n : ℝ))) - 1 / Real.exp (sigma * Real.sqrt (T / (n : ℝ)))) /
      (Real.exp (sigma * Real.sqrt (T / (n : ℝ))) - 1 / Real.exp (sigma * Real.sqrt (T / (n : ℝ)))))
    (Real.exp (-(r * (T / (n : ℝ))))) optionType n
    hp0 hp1 (Real.exp_pos _).le n 0
  refine ⟨_, _, ?_, ?_, h0, hle⟩
  · simp only [americanOption, binomialTree]
    rw [if_neg hguard]
  · simp only [europeanOption]
    rw [if_neg hguard]

/-- Witness for C10 at `S = K = T = sigma = 1`, `r = 0`, one step, call. -/
theorem american_dominates_european_witness :
    ∃ a e, americanOption 1 1 1 0 1 1 OptionType.call = .ok a ∧
      europeanOption 1 1 1 0 1 1 OptionType.call = .ok e ∧ 0 ≤ e ∧ e ≤ a := by
  have he : (1:ℝ) < Real.exp 1 := by
    have := Real.exp_one_gt_d9
    linarith
  have hepos : (0:ℝ) < Real.exp 1 := by linarith
  have hinv1 : (Real.exp 1)⁻¹ < 1 := by
    rw [inv_lt_one_iff₀]
    right
    exact he
  have hinvpos : 0 < (Real.exp 1)⁻¹ := by positivity
  apply american_dominates_european (by norm_num) (by norm_num) (by norm_num) (by norm_num)
    (by norm_num)
  · norm_num [Real.sqrt_one, Real.exp_zero]
    apply div_nonneg <;> linarith
  · norm_num [Real.sqrt_one, Real.exp_zero]
    rw [div_le_one (by linarith)]
    linarith

/-! ## Portfolio optimization
(`src/packages/portfolio-optimization/src/constraints.ts`,
`src/packages/portfolio-optimization/src/markowitz.ts`, `src/unnamed/part_006`) -/

/-- `WeightConstraints` (`constraints.ts`, lines 8–14). -/
structure WeightConstraints where
  min : Option (List ℝ)
  max : Option (List ℝ)
  longOnly : Bool
  maxWeight : Option ℝ
  minWeight : Option ℝ

/-- `checkWeightConstraints` (`constraints.ts`, lines 22–73): the weight sum
must be within `0.01` of `1` and no enabled bound may be violated; a per-asset
bound vector of the wrong length also fails. -/
def checkWeightConstraints (weights : List ℝ) (c : WeightConstraints) : Prop :=
  |weights.sum - 1| ≤ 0.01 ∧
  (c.longOnly = true → ∀ w ∈ weights, ¬ w < 0) ∧
  (∀ m, c.minWeight = some m → ∀ w ∈ weights, ¬ w < m) ∧
  (∀ m, c.maxWeight = some m → ∀ w ∈ weights, ¬ w > m) ∧
  (∀ l, c.min = some l → weights.length = l.length ∧
    ∀ i, i < weights.length → ¬ weights.getD i 0 < l.getD i 0) ∧
  (∀ l, c.max = some l → weights.length = l.length ∧
    ∀ i, i < weights.length → ¬ weights.getD i 0 > l.getD i 0)

/-- The local `checkWeightConstraints` of `src/unnamed/part_006` (lines
215–243), used by `calculateMinimumVariancePortfolio` (and
`calculateEfficientPortfolio`): it enforces only the sum tolerance, long-only,
and the uniform `minWeight`/`maxWeight` bounds — the per-asset `min`/`max`
vectors are ignored. -/
def checkWeightConstraintsLocal (weights : List ℝ) (c : WeightConstraints) : Prop :=
  |weights.sum - 1| ≤ 0.01 ∧
  (c.longOnly = true → ∀ w ∈ weights, ¬ w < 0) ∧
  (∀ m, c.minWeight = some m → ∀ w ∈ weights, ¬ w < m) ∧
  (∀ m, c.maxWeight = some m → ∀ w ∈ weights, ¬ w > m)

/-- `normalizeWeights` (`constraints.ts`, lines 80–86): divide by the sum,
throwing when the sum is zero. -/
noncomputable def normalizeWeights (weights : List ℝ) : Except String (List ℝ) :=
  if weights.sum = 0 then
    .error "weight sum must not be zero"
  else
    .ok (weights.map (fun w => w / weights.sum))

/-- Body of `calculatePortfolioExpectedReturn` (`part_006`, lines 24–32):
`Σᵢ rᵢ wᵢ`.  Its length guard cannot fire inside the optimizers, where every
weight vector has the length of the returns vector. -/
noncomputable def portfolioReturnVal (returns weights : List ℝ) : ℝ :=
  ((List.range returns.length).map (fun i => returns.getD i 0 * weights.getD i 0)).sum

/-- Body of `calculatePortfolioVariance` (`part_006`, lines 40–59): the double
loop `Σᵢ Σⱼ wᵢ wⱼ Σᵢⱼ`.  Its squareness guards fire, in the source, on the very
first evaluation (at the initial weights, before any loop iteration), so they
are hoisted to the optimizer entry below with unchanged observable
behavior. -/
noncomputable def portfolioVarianceVal (covarianceMatrix : List (List ℝ)) (weights : List ℝ) : ℝ :=
  ((List.range weights.length).map (fun i =>
    ((List.range weights.length).map (fun j =>
      weights.getD i 0 * weights.getD j 0 * ((covarianceMatrix.getD i []).getD j 0))).sum)).sum

/-- `calculateSharpeRatio` (`markowitz.ts`, lines 100–115): `0` when the
portfolio volatility is zero, the excess return over the volatility
otherwise. -/
noncomputable def calculateSharpeRatio (returns : List ℝ) (covarianceMatrix : List (List ℝ))
    (weights : List ℝ) (riskFreeRate : ℝ) : ℝ :=
  let vol := Real.sqrt (portfolioVarianceVal covarianceMatrix weights)
  if vol = 0 then 0
  else (portfolioReturnVal returns weights - riskFreeRate) / vol

/-- `PortfolioResult` (`part_006`, lines 10–16). -/
structure PortfolioResult where
  weights : List ℝ
  expectedReturn : ℝ
  variance : ℝ
  volatility : ℝ
  sharpeRatio : Option ℝ

/-- One perturbed candidate: each weight moved by `(rng k - 0.5)·lr`, where
`rng` is the explicit stream of `Math.random()` draws and `k` the index of the
next unconsumed draw (`markowitz.ts` line 58, `part_006` lines 92 and 187). -/
noncomputable def perturbWeights (rng : ℕ → ℝ) (lr : ℝ) : ℕ → List ℝ → List ℝ
  | _, [] => []
  | k, w :: ws => (w + (rng k - 0.5) * lr) :: perturbWeights rng lr (k + 1) ws

/-- The random-search loop shared by the four optimizers (`markowitz.ts` lines
57–78, 163–186, 214–235; `part_006` lines 186–202): perturb the best weights
with `learningRate = 0.01`, renormalize, skip a candidate that fails the
constraint check when constraints are supplied, and move to it only if
`accept best candidate` holds.  The loop state is the best weight vector
alone: each optimizer's stored best-objective scalar always equals its
objective evaluated at the best weights, so it is folded into `accept`.
`fuel` counts remaining iterations and `k` indexes the random stream. -/
noncomputable def optimizerLoop (constraints : Option WeightConstraints)
    (check : List ℝ → WeightConstraints → Prop) (accept : List ℝ → List ℝ → Prop)
    (rng : ℕ → ℝ) : ℕ → ℕ → List ℝ → Except String (List ℝ)
  | 0, _, best => .ok best
  | fuel + 1, k, best =>
    exceptBind (normalizeWeights (perturbWeights rng 0.01 k best)) (fun cand =>
      if (match constraints with
          | some c => ¬ check cand c
          | none => False) then
        optimizerLoop constraints check accept rng fuel (k + best.length) best
      else if accept best cand then
        optimizerLoop constraints check accept rng fuel (k + best.length) cand
      else
        optimizerLoop constraints check accept rng fuel (k + best.length) best)

/-- Equal-weight initialization followed by the search loop, as performed by
every optimizer (`markowitz.ts` lines 45 and 57–78 etc.): normalize the
equal-weight vector, then run `10000` iterations. -/
noncomputable def runSearch (constraints : Option WeightConstraints)
    (check : List ℝ → WeightConstraints → Prop) (accept : List ℝ → List ℝ → Prop)
    (rng : ℕ → ℝ) (n : ℕ) : Except String (List ℝ) :=
  exceptBind (normalizeWeights (List.replicate n (1 / (n : ℝ)))) (fun init =>
    optimizerLoop constraints check accept rng 10000 0 init)

/-- `calculateMaxSharpePortfolio` (`markowitz.ts`, lines 31–90).  The square
shape of the covariance matrix is hoisted here from the first
`calculatePortfolioVariance` call; the dead `excessReturns` array of source
line 43 is omitted. -/
noncomputable def calculateMaxSharpePortfolio (returns : List ℝ)
    (covarianceMatrix : List (List ℝ)) (riskFreeRate : ℝ)
    (constraints : Option WeightConstraints) (rng : ℕ → ℝ) : Except String PortfolioResult :=
  if returns.length ≠ covarianceMatrix.length then
    .error "returns length must match covariance dimension"
  else if ¬ (∀ row ∈ covarianceMatrix, row.length = returns.length) then
    .error "covariance matrix must be square"
  else
    exceptBind (runSearch constraints checkWeightConstraints
        (fun best cand => calculateSharpeRatio returns covarianceMatrix cand riskFreeRate >
          calculateSharpeRatio returns covarianceMatrix best riskFreeRate)
        rng returns.length) (fun best =>
      .ok { weights := best
            expectedReturn := portfolioReturnVal returns best
            variance := portfolioVarianceVal covarianceMatrix best
            volatility := Real.sqrt (portfolioVarianceVal covarianceMatrix best)
            sharpeRatio := some (calculateSharpeRatio returns covarianceMatrix best riskFreeRate) })

/-- `optimizeForTargetReturn` (`markowitz.ts`, lines 151–196): dual-criterion
acceptance — closer to the target return and lower variance. -/
noncomputable def optimizeForTargetReturn (returns : List ℝ)
    (covarianceMatrix : List (List ℝ)) (targetReturn : ℝ)
    (constraints : Option WeightConstraints) (rng : ℕ → ℝ) : Except String PortfolioResult :=
  if covarianceMatrix.length ≠ returns.length ∨
      ¬ (∀ row ∈ covarianceMatrix, row.length = returns.length) then
    .error "covariance matrix must be square"
  else
    exceptBind (runSearch constraints checkWeightConstraints
        (fun best cand =>
          |portfolioReturnVal returns cand - targetReturn| <
            |portfolioReturnVal returns best - targetReturn| ∧
          portfolioVarianceVal covarianceMatrix cand < portfolioVarianceVal covarianceMatrix best)
        rng returns.length) (fun best =>
      .ok { weights := best
            expectedReturn := portfolioReturnVal returns best
            variance := portfolioVarianceVal covarianceMatrix best
            volatility := Real.sqrt (portfolioVarianceVal covarianceMatrix best)
            sharpeRatio := none })

/-- `optimizeForTargetRisk` (`markowitz.ts`, lines 201–245): dual-criterion
acceptance — variance closer to the squared target risk and higher return. -/
noncomputable def optimizeForTargetRisk (returns : List ℝ)
    (covarianceMatrix : List (List ℝ)) (targetRisk : ℝ)
    (constraints : Option WeightConstraints) (rng : ℕ → ℝ) : Except String PortfolioResult :=
  if covarianceMatrix.length ≠ returns.length ∨
      ¬ (∀ row ∈ covarianceMatrix, row.length = returns.length) then
    .error "covariance matrix must be square"
  else
    exceptBind (runSearch constraints checkWeightConstraints
        (fun best cand =>
          |portfolioVarianceVal covarianceMatrix cand - targetRisk * targetRisk| <
            |portfolioVarianceVal covarianceMatrix best - targetRisk * targetRisk| ∧
          portfolioReturnVal returns cand > portfolioReturnVal returns best)
        rng returns.length) (fun best =>
      .ok { weights := best
            expectedReturn := portfolioReturnVal returns best
            variance := portfolioVarianceVal covarianceMatrix best
            volatility := Real.sqrt (portfolioVarianceVal covarianceMatrix best)
            sharpeRatio := none })

/-- `calculateMinimumVariancePortfolio` (`part_006`, lines 172–212): minimizes
the variance, checking candidates with the file-local constraint checker; the
returns vector is all zeros. -/
noncomputable def calculateMinimumVariancePortfolio (covarianceMatrix : List (List ℝ))
    (constraints : Option WeightConstraints) (rng : ℕ → ℝ) : Except String PortfolioResult :=
  if ¬ (∀ row ∈ covarianceMatrix, row.length = covarianceMatrix.length) then
    .error "covariance matrix must be square"
  else
    exceptBind (runSearch constraints checkWeightConstraintsLocal
        (fun best cand =>
          portfolioVarianceVal covarianceMatrix cand < portfolioVarianceVal covarianceMatrix best)
        rng covarianceMatrix.length) (fun best =>
      .ok { weights := best
            expectedReturn := portfolioReturnVal (List.replicate covarianceMatrix.length 0) best
            variance := portfolioVarianceVal covarianceMatrix best
            volatility := Real.sqrt (portfolioVarianceVal covarianceMatrix best)
            sharpeRatio := none })

/-- Dividing every element by a scalar divides the sum. -/
theorem list_sum_div (l : List ℝ) (s : ℝ) : (l.map (fun w => w / s)).sum = l.sum / s := by
  induction l with
  | nil => simp
  | cons a t ih =>
    simp only [List.map_cons, List.sum_cons, ih]
    ring

/-- A successful normalization yields a vector of the same length whose sum is
exactly `1`. -/
theorem normalizeWeights_ok {ws l : List ℝ} (h : normalizeWeights ws = .ok l) :
    l.sum = 1 ∧ l.length = ws.length := by
  simp only [normalizeWeights] at h
  by_cases hs : ws.sum = 0
  · rw [if_pos hs] at h
    exact Except.noConfusion h
  · rw [if_neg hs] at h
    injection h with h
    subst h
    constructor
    · rw [list_sum_div, div_self hs]
    · exact List.length_map _ _

/-- Normalizing a vector that already sums to `1` returns it unchanged. -/
theorem normalizeWeights_of_sum_one {l : List ℝ} (h : l.sum = 1) :
    normalizeWeights l = .ok l := by
  simp only [normalizeWeights, h]
  rw [if_neg one_ne_zero]
  congr 1
  have : (fun w : ℝ => w / 1) = id := by
    funext w
    simp
  rw [this, List.map_id]

/-- Successful equal-weight initialization returns the equal-weight vector
itself (its sum is exactly `1`). -/
theorem normalize_replicate_ok {n : ℕ} {init : List ℝ}
    (h : normalizeWeights (List.replicate n (1 / (n : ℝ))) = .ok init) :
    init = List.replicate n (1 / (n : ℝ)) ∧ init.sum = 1 := by
  cases n with
  | zero =>
    simp only [List.replicate, normalizeWeights, List.sum_nil, if_pos] at h
    exact Except.noConfusion h
  | succ m =>
    have hsum : (List.replicate (m + 1) (1 / ((m + 1 : ℕ) : ℝ))).sum = 1 := by
      rw [List.sum_replicate, nsmul_eq_mul]
      have : ((m + 1 : ℕ) : ℝ) ≠ 0 := by
        exact_mod_cast Nat.succ_ne_zero m
      field_simp
    rw [normalizeWeights_of_sum_one hsum] at h
    injection h with h
    subst h
    exact ⟨rfl, hsum⟩

/-- Any weight vector returned by the search loop is either the unchanged
start vector or a normalized candidate that passed the constraint check. -/
theorem optimizerLoop_inv (constraints : Option WeightConstraints)
    (check : List ℝ → WeightConstraints → Prop) (accept : List ℝ → List ℝ → Prop)
    (rng : ℕ → ℝ) :
    ∀ (fuel k : ℕ) (best result : List ℝ),
      optimizerLoop constraints check accept rng fuel k best = .ok result →
      result = best ∨ (result.sum = 1 ∧ ∀ c, constraints = some c → check result c) := by
  intro fuel
  induction fuel with
  | zero =>
    intro k best result h
    injection h with h
    exact Or.inl h.symm
  | succ m ih =>
    intro k best result h
    simp only [optimizerLoop] at h
    cases hcand : normalizeWeights (perturbWeights rng 0.01 k best) with
    | error e =>
      rw [hcand] at h
      exact Except.noConfusion h
    | ok cand =>
      rw [hcand, exceptBind_ok] at h
      by_cases h1 : (match constraints with
          | some c => ¬ check cand c
          | none => False)
      · rw [if_pos h1] at h
        exact ih _ _ _ h
      · rw [if_neg h1] at h
        by_cases h2 : accept best cand
        · rw [if_pos h2] at h
          rcases ih _ _ _ h with heq | hgood
          · subst heq
            refine Or.inr ⟨(normalizeWeights_ok hcand).1, ?_⟩
            intro c hc
            rw [hc] at h1
            exact not_not.mp h1
          · exact Or.inr hgood
        · rw [if_neg h2] at h
          exact ih _ _ _ h

/-- Any weight vector produced by equal-weight initialization plus the search
loop sums to `1`, and satisfies the supplied constraints whenever the
equal-weight start vector does. -/
theorem runSearch_spec {constraints : Option WeightConstraints}
    {check : List ℝ → WeightConstraints → Prop} {accept : List ℝ → List ℝ → Prop}
    {rng : ℕ → ℝ} {n : ℕ} {best : List ℝ}
    (h : runSearch constraints check accept rng n = .ok best) :
    best.sum = 1 ∧ ∀ c, constraints = some c →
      check (List.replicate n (1 / (n : ℝ))) c → check best c := by
  simp only [runSearch] at h
  cases hinit : normalizeWeights (List.replicate n (1 / (n : ℝ))) with
  | error e =>
    rw [hinit] at h
    exact Except.noConfusion h
  | ok init =>
    rw [hinit, exceptBind_ok] at h
    obtain ⟨hrep, hsum⟩ := normalize_replicate_ok hinit
    rcases optimizerLoop_inv constraints check accept rng 10000 0 init best h with heq | hgood
    · subst heq
      refine ⟨hsum, ?_⟩
      intro c _ hc0
      rw [hrep]
      exact hc0
    · exact ⟨hgood.1, fun c hc _ => hgood.2 c hc⟩

/-- A successful `exceptBind` factors through a successful first stage. -/
theorem exceptBind_ok_inv {α β : Type} {e : Except String α} {f : α → Except String β} {b : β}
    (h : exceptBind e f = .ok b) : ∃ a, e = .ok a ∧ f a = .ok b := by
  cases e with
  | error s =>
    simp only [exceptBind] at h
    exact Except.noConfusion h
  | ok a =>
    refine ⟨a, rfl, ?_⟩
    simpa [exceptBind] using h

/-- C2 (amended): every weight vector returned by the four optimizers sums to
exactly `1` (hence within the `0.01` tolerance); and it satisfies the supplied
constraints whenever the equal-weight starting vector satisfies them — where
max-Sharpe, target-return and target-risk enforce the full checker of
`constraints.ts` and min-variance enforces the file-local checker of
`part_006`, which ignores the per-asset `min`/`max` vectors. -/
theorem optimizer_weights_invariant :
    (∀ (returns : List ℝ) (cov : List (List ℝ)) (rf : ℝ) (cfg : Option WeightConstraints)
      (rng : ℕ → ℝ) (res : PortfolioResult),
      calculateMaxSharpePortfolio returns cov rf cfg rng = .ok res →
      |res.weights.sum - 1| ≤ 0.01 ∧ ∀ c, cfg = some c →
        checkWeightConstraints (List.replicate returns.length (1 / (returns.length : ℝ))) c →
        checkWeightConstraints res.weights c) ∧
    (∀ (returns : List ℝ) (cov : List (List ℝ)) (target : ℝ) (cfg : Option WeightConstraints)
      (rng : ℕ → ℝ) (res : PortfolioResult),
      optimizeForTargetReturn returns cov target cfg rng = .ok res →
      |res.weights.sum - 1| ≤ 0.01 ∧ ∀ c, cfg = some c →
        checkWeightConstraints (List.replicate returns.length (1 / (returns.length : ℝ))) c →
        checkWeightConstraints res.weights c) ∧
    (∀ (returns : List ℝ) (cov : List (List ℝ)) (target : ℝ) (cfg : Option WeightConstraints)
      (rng : ℕ → ℝ) (res : PortfolioResult),
      optimizeForTargetRisk returns cov target cfg rng = .ok res →
      |res.weights.sum - 1| ≤ 0.01 ∧ ∀ c, cfg = some c →
        checkWeightConstraints (List.replicate returns.length (1 / (returns.length : ℝ))) c →
        checkWeightConstraints res.weights c) ∧
    (∀ (cov : List (List ℝ)) (cfg : Option WeightConstraints) (rng : ℕ → ℝ)
      (res : PortfolioResult),
      calculateMinimumVariancePortfolio cov cfg rng = .ok res →
      |res.weights.sum - 1| ≤ 0.01 ∧ ∀ c, cfg = some c →
        checkWeightConstraintsLocal (List.replicate cov.length (1 / (cov.length : ℝ))) c →
        checkWeightConstraintsLocal res.weights c) := by
  refine ⟨?_, ?_, ?_, ?_⟩
  · intro returns cov rf cfg rng res h
    simp only [calculateMaxSharpePortfolio] at h
    split_ifs at h with hg1 hg2
    obtain ⟨best, hrs, hres⟩ := exceptBind_ok_inv h
    injection hres with hres
    obtain ⟨hsum, hck⟩ := runSearch_spec hrs
    rw [← hres]
    constructor
    · show |best.sum - 1| ≤ 0.01
      rw [hsum]
      norm_num
    · intro c hc hc0
      exact hck c hc hc0
  · intro returns cov target cfg rng res h
    simp only [optimizeForTargetReturn] at h
    split_ifs at h with hg1
    obtain ⟨best, hrs, hres⟩ := exceptBind_ok_inv h
    injection hres with hres
    obtain ⟨hsum, hck⟩ := runSearch_spec hrs
    rw [← hres]
    constructor
    · show |best.sum - 1| ≤ 0.01
      rw [hsum]
      norm_num
    · intro c hc hc0
      exact hck c hc hc0
  · intro returns cov target cfg rng res h
    simp only [optimizeForTargetRisk] at h
    split_ifs at h with hg1
    obtain ⟨best, hrs, hres⟩ := exceptBind_ok_inv h
    injection hres with hres
    obtain ⟨hsum, hck⟩ := runSearch_spec hrs
    rw [← hres]
    constructor
    · show |best.sum - 1| ≤ 0.01
      rw [hsum]
      norm_num
    · intro c hc hc0
      exact hck c hc hc0
  · intro cov cfg rng res h
    simp only [calculateMinimumVariancePortfolio] at h
    split_ifs at h with hg1
    obtain ⟨best, hrs, hres⟩ := exceptBind_ok_inv h
    injection hres with hres
    obtain ⟨hsum, hck⟩ := runSearch_spec hrs
    rw [← hres]
    constructor
    · show |best.sum - 1| ≤ 0.01
      rw [hsum]
      norm_num
    · intro c hc hc0
      exact hck c hc hc0

/-- Under the constant random stream `1/2` every perturbation is zero. -/
theorem perturbWeights_const_half :
    ∀ (l : List ℝ) (k : ℕ), perturbWeights (fun _ => (1:ℝ)/2) 0.01 k l = l := by
  intro l
  induction l with
  | nil =>
    intro k
    rfl
  | cons w ws ih =>
    intro k
    simp only [perturbWeights, ih]
    norm_num

/-- Under the constant random stream `1/2` the search loop never moves: the
candidate equals the current best at every iteration. -/
theorem optimizerLoop_const_half (constraints : Option WeightConstraints)
    (check : List ℝ → WeightConstraints → Prop) (accept : List ℝ → List ℝ → Prop)
    {best : List ℝ} (hsum : best.sum = 1) :
    ∀ (fuel k : ℕ),
      optimizerLoop constraints check accept (fun _ => (1:ℝ)/2) fuel k best = .ok best := by
  have hnorm : normalizeWeights best = .ok best := normalizeWeights_of_sum_one hsum
  intro fuel
  induction fuel with
  | zero =>
    intro k
    rfl
  | succ m ih =>
    intro k
    simp only [optimizerLoop, perturbWeights_const_half, hnorm, exceptBind_ok]
    split_ifs with h1 h2 <;> exact ih _

/-- Concrete evaluation of `calculateMaxSharpePortfolio` on two riskless
assets under the constant random stream `1/2` and arbitrary supplied
constraints: the search never moves, so the unchecked equal-weight start
vector is returned. -/
theorem maxSharpe_const_half_eval (c : WeightConstraints) :
    calculateMaxSharpePortfolio [0, 0] [[0, 0], [0, 0]] 0 (some c) (fun _ => (1:ℝ)/2) =
      .ok { weights := [1/2, 1/2], expectedReturn := 0, variance := 0,
            volatility := 0, sharpeRatio := some 0 } := by
  have hrep : List.replicate 2 (1 / (((2:ℕ)) : ℝ)) = [(1:ℝ)/2, 1/2] := by
    norm_num [List.replicate]
  have hsum : ([(1:ℝ)/2, 1/2]).sum = 1 := by
    norm_num
  have hinit : normalizeWeights (List.replicate 2 (1 / (((2:ℕ)) : ℝ))) =
      .ok [(1:ℝ)/2, 1/2] := by
    rw [hrep]
    exact normalizeWeights_of_sum_one hsum
  have hret : portfolioReturnVal [0, 0] [(1:ℝ)/2, 1/2] = 0 := by
    norm_num [portfolioReturnVal, List.range_succ]
  have hvar : portfolioVarianceVal [[0, 0], [0, 0]] [(1:ℝ)/2, 1/2] = 0 := by
    norm_num [portfolioVarianceVal, List.range_succ]
  have hsharpe : calculateSharpeRatio [0, 0] [[0, 0], [0, 0]] [(1:ℝ)/2, 1/2] 0 = 0 := by
    simp only [calculateSharpeRatio]
    rw [hvar, Real.sqrt_zero]
    simp
  simp only [calculateMaxSharpePortfolio, runSearch]
  rw [if_neg (by norm_num), if_neg (by simp)]
  have hlen : ([0, 0] : List ℝ).length = 2 := rfl
  rw [hlen, hinit, exceptBind_ok,
    optimizerLoop_const_half _ _ _ hsum 10000 0, exceptBind_ok, hret, hvar, hsharpe,
    Real.sqrt_zero]

/-- The constraint set of the C2 counterexample: a uniform maximum weight of
`3/10`. -/
noncomputable def cexConstraints : WeightConstraints :=
  { min := none, max := none, longOnly := false, maxWeight := some (3/10), minWeight := none }

/-- C2 counterexample: with two assets, a supplied maximum-weight constraint
of `3/10`, and the constant random stream `1/2`, the max-Sharpe optimizer
returns the never-checked equal-weight start vector `[1/2, 1/2]`, which
violates the supplied constraint set. -/
theorem maxSharpe_constraint_violation_cex :
    calculateMaxSharpePortfolio [0, 0] [[0, 0], [0, 0]] 0 (some cexConstraints)
        (fun _ => (1:ℝ)/2) =
      .ok { weights := [1/2, 1/2], expectedReturn := 0, variance := 0,
            volatility := 0, sharpeRatio := some 0 } ∧
    ¬ checkWeightConstraints [(1:ℝ)/2, 1/2] cexConstraints := by
  refine ⟨maxSharpe_const_half_eval cexConstraints, ?_⟩
  intro ⟨_, _, _, h4, _, _⟩
  have hbad := h4 (3/10) rfl (1/2) (by simp)
  norm_num at hbad

/-- The trivially satisfiable constraint set of the C2 witness: long-only
without further bounds. -/
def longOnlyConstraints : WeightConstraints :=
  { min := none, max := none, longOnly := true, maxWeight := none, minWeight := none }

/-- Witness for C2's amended theorem: the max-Sharpe optimizer on two riskless
assets with a long-only constraint returns weights summing to `1` within
tolerance and satisfying the constraint. -/
theorem optimizer_weights_invariant_witness :
    |([(1:ℝ)/2, 1/2]).sum - 1| ≤ 0.01 ∧
      checkWeightConstraints [(1:ℝ)/2, 1/2] longOnlyConstraints := by
  have h := optimizer_weights_invariant.1 [0, 0] [[0, 0], [0, 0]] 0 (some longOnlyConstraints)
    (fun _ => (1:ℝ)/2) _ (maxSharpe_const_half_eval longOnlyConstraints)
  refine ⟨h.1, ?_⟩
  refine h.2 longOnlyConstraints rfl ?_
  refine ⟨?_, ?_, ?_, ?_, ?_, ?_⟩
  · norm_num [List.sum_replicate]
  · intro _ w hw
    rw [List.eq_of_mem_replicate hw]
    norm_num
  · intro m hm
    exact Option.noConfusion hm
  · intro m hm
    exact Option.noConfusion hm
  · intro l hl
    exact Option.noConfusion hl
  · intro l hl
    exact Option.noConfusion hl

/-! ## Statistical factor models (`src/unnamed/part_030`), over exact
rationals (`ℚ`) — every operation of this module is rational arithmetic. -/

/-- Error-propagating map: the first thrown error aborts the whole
traversal. -/
def mapExcept {α β : Type} (f : α → Except String β) : List α → Except String (List β)
  | [] => .ok []
  | a :: as =>
    exceptBind (f a) (fun b => exceptBind (mapExcept f as) (fun bs => .ok (b :: bs)))

/-- `SimpleLinearRegressionResult` (`part_030`, lines 8–13).  The
`standardError` field — `√(SSresidual/(n-2))`, the module's only irrational
output — is omitted from the embedding; no claim concerns it. -/
structure SimpleLinearRegressionResult where
  intercept : ℚ
  slope : ℚ
  rSquared : ℚ
deriving DecidableEq

/-- `MultipleLinearRegressionResult` (`part_030`, lines 18–23). -/
structure MultipleLinearRegressionResult where
  intercept : ℚ
  coefficients : List ℚ
  rSquared : ℚ
  adjustedRSquared : ℚ
deriving DecidableEq

/-- `simpleLinearRegression` (`part_030`, lines 32–83): closed-form
least-squares slope and intercept, `R²` from residual and total sums of
squares clamped into `[0,1]`.  The `sumYY` accumulator of source line 48 is
dead and omitted. -/
def simpleLinearRegression (x y : List ℚ) : Except String SimpleLinearRegressionResult :=
  if x.length ≠ y.length then
    .error "x and y must have the same length"
  else if x.length < 2 then
    .error "at least 2 data points required"
  else
    let n : ℚ := x.length
    let sumX := x.sum
    let sumY := y.sum
    let sumXY := ((List.range x.length).map (fun i => x.getD i 0 * y.getD i 0)).sum
    let sumXX := (x.map (fun v => v * v)).sum
    let denominator := n * sumXX - sumX * sumX
    if denominator = 0 then
      .error "zero variance in x"
    else
      let slope := (n * sumXY - sumX * sumY) / denominator
      let intercept := (sumY - slope * sumX) / n
      let yMean := sumY / n
      let ssTotal := ((List.range x.length).map (fun i => (y.getD i 0 - yMean) ^ 2)).sum
      let ssResidual := ((List.range x.length).map (fun i =>
        (y.getD i 0 - (intercept + slope * x.getD i 0)) ^ 2)).sum
      let rSquared := if ssTotal = 0 then 0 else 1 - ssResidual / ssTotal
      .ok { intercept := intercept
            slope := slope
            rSquared := max 0 (min 1 rSquared) }

/-- `findPivotRow` of `gaussianElimination` (`part_030`, lines 183–190): the
row at or below `i` with the largest absolute entry in column `i` (strict
improvement replaces, ties keep the earlier row). -/
def findPivotRow (augmented : List (List ℚ)) (i : ℕ) : ℕ :=
  (List.range augmented.length).foldl (fun maxRow k =>
    if i < k ∧ |(augmented.getD k []).getD i 0| > |(augmented.getD maxRow []).getD i 0| then k
    else maxRow) i

/-- One eliminated row of the forward phase (`part_030`, lines 197–200):
subtract `factor` times the pivot row from columns `i` onward. -/
def elimRow (pivotRow row : List ℚ) (i : ℕ) : List ℚ :=
  let factor := row.getD i 0 / pivotRow.getD i 0
  (List.range row.length).map (fun j =>
    if i ≤ j then row.getD j 0 - factor * pivotRow.getD j 0 else row.getD j 0)

/-- Elimination below pivot `i` (`part_030`, lines 193–201): the near-zero
pivot check of line 194 sits inside the row loop, so it throws exactly when
some row lies below `i`. -/
def elimBelow (augmented : List (List ℚ)) (i : ℕ) : Except String (List (List ℚ)) :=
  if i + 1 < augmented.length ∧ |(augmented.getD i []).getD i 0| < 1e-10 then
    .error "singular matrix"
  else
    .ok ((List.range augmented.length).map (fun k =>
      if i + 1 ≤ k then elimRow (augmented.getD i []) (augmented.getD k []) i
      else augmented.getD k []))

/-- The row swap of partial pivoting (`part_030`, line 190). -/
def swapRows (augmented : List (List ℚ)) (i : ℕ) : List (List ℚ) :=
  let maxRow := findPivotRow augmented i
  (augmented.set i (augmented.getD maxRow [])).set maxRow (augmented.getD i [])

/-- The forward-elimination phase (`part_030`, lines 182–202), one pivot index
at a time. -/
def forwardPhase : List ℕ → List (List ℚ) → Except String (List (List ℚ))
  | [], augmented => .ok augmented
  | i :: rest, augmented =>
    exceptBind (elimBelow (swapRows augmented i) i) (forwardPhase rest)

/-- The back-substitution phase (`part_030`, lines 205–215), building the last
`fuel` solution entries `x_{n-fuel}, …, x_{n-1}`; each step checks the
diagonal entry against `1e-10` before dividing. -/
def backSubst (augmented : List (List ℚ)) (n : ℕ) : ℕ → Except String (List ℚ)
  | 0 => .ok []
  | fuel + 1 =>
    exceptBind (backSubst augmented n fuel) (fun tail =>
      let i := n - (fuel + 1)
      if |(augmented.getD i []).getD i 0| < 1e-10 then
        .error "singular matrix"
      else
        .ok (((augmented.getD i []).getD n 0 -
            ((List.range fuel).map (fun t =>
              (augmented.getD i []).getD (i + 1 + t) 0 * tail.getD t 0)).sum)
          / (augmented.getD i []).getD i 0 :: tail))

/-- `gaussianElimination` (`part_030`, lines 177–218): augment, forward
eliminate with partial pivoting, back substitute. -/
def gaussianElimination (A : List (List ℚ)) (b : List ℚ) : Except String (List ℚ) :=
  let n := A.length
  let augmented := (List.range n).map (fun i => A.getD i [] ++ [b.getD i 0])
  exceptBind (forwardPhase (List.range n) augmented) (fun reduced => backSubst reduced n n)

/-- `solveNormalEquation` (`part_030`, lines 143–172): form `XᵗX` and `Xᵗy`,
then solve by Gaussian elimination. -/
def solveNormalEquation (X : List (List ℚ)) (y : List ℚ) : Except String (List ℚ) :=
  let n := X.length
  let k := (X.getD 0 []).length
  let XTX := (List.range k).map (fun i => (List.range k).map (fun j =>
    ((List.range n).map (fun m => (X.getD m []).getD i 0 * (X.getD m []).getD j 0)).sum))
  let XTy := (List.range k).map (fun i =>
    ((List.range n).map (fun m => (X.getD m []).getD i 0 * y.getD m 0)).sum)
  gaussianElimination XTX XTy

/-- `multipleLinearRegression` (`part_030`, lines 92–138): guards, design
matrix with intercept column, normal equations, `R²` and adjusted `R²`
clamped into `[0,1]`. -/
def multipleLinearRegression (y : List ℚ) (x : List (List ℚ)) :
    Except String MultipleLinearRegressionResult :=
  if x.length = 0 then
    .error "x must not be empty"
  else if y.length ≠ (x.getD 0 []).length then
    .error "y length must match the column count of x"
  else if y.length < x.length + 1 then
    .error "more observations than regressors required"
  else
    let n := y.length
    let k := x.length
    let X := (List.range n).map (fun i => 1 :: x.map (fun col => col.getD i 0))
    exceptBind (solveNormalEquation X y) (fun coefficients =>
      let yMean := y.sum / (n : ℚ)
      let ssTotal := ((List.range n).map (fun i => (y.getD i 0 - yMean) ^ 2)).sum
      let ssResidual := ((List.range n).map (fun i =>
        (y.getD i 0 - (coefficients.getD 0 0 +
          ((List.range k).map (fun j =>
            (coefficients.drop 1).getD j 0 * (x.getD j []).getD i 0)).sum)) ^ 2)).sum
      let rSquared := if ssTotal = 0 then 0 else 1 - ssResidual / ssTotal
      let adjustedRSquared := 1 - (1 - rSquared) * (((n : ℚ) - 1) / ((n : ℚ) - (k : ℚ) - 1))
      .ok { intercept := coefficients.getD 0 0
            coefficients := coefficients.drop 1
            rSquared := max 0 (min 1 rSquared)
            adjustedRSquared := max 0 (min 1 adjustedRSquared) })

/-- Body of `calculateCovariance` (`part_030`, lines 229–246) after its
guards: the sample covariance with the `n-1` denominator. -/
def covarianceVal (x y : List ℚ) : ℚ :=
  let meanX := x.sum / (x.length : ℚ)
  let meanY := y.sum / (y.length : ℚ)
  ((List.range x.length).map (fun i => (x.getD i 0 - meanX) * (y.getD i 0 - meanY))).sum
    / ((x.length : ℚ) - 1)

/-- `calculateCovariance` (`part_030`, lines 229–246). -/
def calculateCovariance (x y : List ℚ) : Except String ℚ :=
  if x.length ≠ y.length then
    .error "arrays must have the same length"
  else if x.length = 0 then
    .error "arrays must not be empty"
  else
    .ok (covarianceVal x y)

/-- `calculateCovarianceMatrix` (`part_030`, lines 290–309): entry `(i,j)` is
the covariance of rows `i` and `j`, with a per-pair equal-length check. -/
def calculateCovarianceMatrix (returnsMatrix : List (List ℚ)) :
    Except String (List (List ℚ)) :=
  if returnsMatrix.length = 0 then
    .error "returns matrix must not be empty"
  else
    mapExcept (fun i =>
      mapExcept (fun j =>
        if (returnsMatrix.getD i []).length ≠ (returnsMatrix.getD j []).length then
          .error "all return series must have the same length"
        else
          calculateCovariance (returnsMatrix.getD i []) (returnsMatrix.getD j []))
        (List.range returnsMatrix.length))
      (List.range returnsMatrix.length)

/-- The clamp `max 0 (min 1 ·)` always lands in `[0, 1]`. -/
theorem clamp01_mem (q : ℚ) : 0 ≤ max 0 (min 1 q) ∧ max 0 (min 1 q) ≤ 1 :=
  ⟨le_max_left _ _, max_le (by norm_num) (min_le_left _ _)⟩

/-- C8: whenever simple or multiple linear regression returns a result, its
`rSquared` field lies in the closed interval `[0, 1]` — both functions clamp
it. -/
theorem rSquared_bounds :
    (∀ (x y : List ℚ) (r : SimpleLinearRegressionResult),
      simpleLinearRegression x y = .ok r → 0 ≤ r.rSquared ∧ r.rSquared ≤ 1) ∧
    (∀ (y : List ℚ) (x : List (List ℚ)) (r : MultipleLinearRegressionResult),
      multipleLinearRegression y x = .ok r → 0 ≤ r.rSquared ∧ r.rSquared ≤ 1) := by
  constructor
  · intro x y r h
    simp only [simpleLinearRegression] at h
    split_ifs at h
    all_goals injection h with h
    all_goals rw [← h]
    all_goals exact clamp01_mem _
  · intro y x r h
    simp only [multipleLinearRegression] at h
    split_ifs at h
    all_goals obtain ⟨coeffs, hs, hres⟩ := exceptBind_ok_inv h
    all_goals injection hres with hres
    all_goals rw [← hres]
    all_goals exact clamp01_mem _

/-- Concrete evaluation: simple linear regression on the exact fit `y = x`
over two points. -/
theorem simpleLinearRegression_eval :
    simpleLinearRegression [0, 1] [0, 1] = .ok ⟨0, 1, 1⟩ := by
  norm_num [simpleLinearRegression, List.range_succ, List.getD]

/-- Concrete evaluation: multiple linear regression on the exact fit `y = x`
over three points with one regressor. -/
theorem multipleLinearRegression_eval :
    multipleLinearRegression [0, 1, 2] [[0, 1, 2]] = .ok ⟨0, [1], 1, 1⟩ := by
  norm_num [multipleLinearRegression, solveNormalEquation, gaussianElimination, forwardPhase,
    elimBelow, swapRows, findPivotRow, elimRow, backSubst, exceptBind,
    List.range_succ, List.getD]

/-- Witness for C8: the perfect fits `y = x` on two points (simple) and on
three points with one regressor (multiple) both produce `rSquared = 1`. -/
theorem rSquared_bounds_witness :
    ((0:ℚ) ≤ (SimpleLinearRegressionResult.mk 0 1 1).rSquared ∧
      (SimpleLinearRegressionResult.mk 0 1 1).rSquared ≤ 1) ∧
    ((0:ℚ) ≤ (MultipleLinearRegressionResult.mk 0 [1] 1 1).rSquared ∧
      (MultipleLinearRegressionResult.mk 0 [1] 1 1).rSquared ≤ 1) :=
  ⟨rSquared_bounds.1 [0, 1] [0, 1] ⟨0, 1, 1⟩ simpleLinearRegression_eval,
   rSquared_bounds.2 [0, 1, 2] [[0, 1, 2]] ⟨0, [1], 1, 1⟩ multipleLinearRegression_eval⟩

/-- `getD` of a mapped range evaluates the mapping. -/
theorem getD_range_map {β : Type} (g : ℕ → β) {n i : ℕ} (hi : i < n) (d : β) :
    ((List.range n).map g).getD i d = g i := by
  have hlen : i < ((List.range n).map g).length := by
    rw [List.length_map, List.length_range]
    exact hi
  rw [List.getD_eq_getElem _ _ hlen]
  simp

/-- `mapExcept` succeeds pointwise when every element does. -/
theorem mapExcept_ok_of {α β : Type} {f : α → Except String β} {g : α → β}
    (l : List α) (h : ∀ a ∈ l, f a = .ok (g a)) :
    mapExcept f l = .ok (l.map g) := by
  induction l with
  | nil => rfl
  | cons a as ih =>
    simp only [mapExcept, h a (List.mem_cons_self a as), exceptBind_ok,
      ih (fun b hb => h b (List.mem_cons_of_mem a hb)), List.map_cons]

/-- The sample covariance is symmetric in its two equally long arguments. -/
theorem covarianceVal_comm {x y : List ℚ} (h : x.length = y.length) :
    covarianceVal x y = covarianceVal y x := by
  simp only [covarianceVal, ← h]
  congr 1
  congr 1
  apply List.map_congr_left
  intro i _
  exact mul_comm _ _

/-- C9: for every nonempty returns matrix with equally long rows, any matrix
returned by `calculateCovarianceMatrix` is symmetric. -/
theorem covarianceMatrix_symmetric (rm : List (List ℚ))
    (hne : rm ≠ []) (hlen : ∀ row ∈ rm, row.length = (rm.getD 0 []).length) :
    ∀ M, calculateCovarianceMatrix rm = .ok M →
      ∀ i j, i < M.length → j < M.length →
        (M.getD i []).getD j 0 = (M.getD j []).getD i 0 := by
  intro M hM i j hi hj
  have hn : ¬ rm.length = 0 := fun h => hne (List.length_eq_zero.mp h)
  have hrowlen : ∀ t, t < rm.length → (rm.getD t []).length = (rm.getD 0 []).length := by
    intro t ht
    apply hlen
    rw [List.getD_eq_getElem rm [] ht]
    exact List.getElem_mem ht
  by_cases hL : (rm.getD 0 []).length = 0
  · exfalso
    obtain ⟨m, hm⟩ : ∃ m, rm.length = m + 1 :=
      ⟨rm.length - 1, (Nat.succ_pred_eq_of_pos (Nat.pos_of_ne_zero hn)).symm⟩
    have hcell0 : (if (rm.getD 0 []).length ≠ (rm.getD 0 []).length then
        (.error "all return series must have the same length" : Except String ℚ)
      else calculateCovariance (rm.getD 0 []) (rm.getD 0 [])) =
        .error "arrays must not be empty" := by
      rw [if_neg (fun hc => hc rfl)]
      simp only [calculateCovariance]
      rw [if_neg (fun hc => hc rfl), if_pos hL]
    simp only [calculateCovarianceMatrix] at hM
    rw [if_neg hn, hm, List.range_succ_eq_map] at hM
    simp only [mapExcept, hcell0, exceptBind] at hM
    exact Except.noConfusion hM
  · have hval : calculateCovarianceMatrix rm = .ok ((List.range rm.length).map (fun t =>
        (List.range rm.length).map (fun s =>
          covarianceVal (rm.getD t []) (rm.getD s [])))) := by
      simp only [calculateCovarianceMatrix]
      rw [if_neg hn]
      apply mapExcept_ok_of
      intro t ht
      rw [List.mem_range] at ht
      apply mapExcept_ok_of
      intro s hs
      rw [List.mem_range] at hs
      have h1 := hrowlen t ht
      have h2 := hrowlen s hs
      rw [if_neg (by rw [h1, h2]; exact fun hc => hc rfl)]
      simp only [calculateCovariance]
      rw [if_neg (by rw [h1, h2]; exact fun hc => hc rfl),
        if_neg (by rw [h1]; exact hL)]
    rw [hval] at hM
    injection hM with hM
    subst hM
    rw [List.length_map, List.length_range] at hi hj
    rw [getD_range_map _ hi, getD_range_map _ hj, getD_range_map _ hj, getD_range_map _ hi]
    exact covarianceVal_comm (by rw [hrowlen i hi, hrowlen j hj])

/-- Witness for C9 on the concrete returns matrix `[[1,2],[3,5]]`, whose
covariance matrix is `[[1/2, 1], [1, 2]]`. -/
theorem covarianceMatrix_symmetric_witness :
    (([[(1:ℚ)/2, 1], [1, 2]].getD 0 []).getD 1 0 =
      ([[(1:ℚ)/2, 1], [1, 2]].getD 1 []).getD 0 0) :=
  covarianceMatrix_symmetric [[1, 2], [3, 5]] (by simp)
    (by
      intro row hrow
      simp only [List.mem_cons, List.not_mem_nil, or_false] at hrow
      rcases hrow with h | h <;> simp [h])
    [[(1:ℚ)/2, 1], [1, 2]]
    (by norm_num [calculateCovarianceMatrix, mapExcept, exceptBind, calculateCovariance,
      covarianceVal, List.range_succ, List.getD])
    0 1 (by norm_num) (by norm_num)
